import Mathlib

set_option maxHeartbeats 1000000
set_option maxRecDepth 8192

/-!
Shallow embedding of the PDF Forge front end (src/components/PDFToolbar.tsx,
src/components/FileUploader.tsx, src/components/PDFEditor.tsx,
src/components/PDFCanvas.tsx, src/pages/Index.tsx, src/pages/Index.tsx and the
unnamed tool-panel component).

Modelling conventions:
* JavaScript strings that are parsed character by character (the split page
  range) are modelled as lists of characters; MIME type strings are Lean
  strings compared structurally.
* The third-party pdf-lib library is modelled at the level of page lists: a
  byte string is represented by the document it parses to (`none` when
  `PDFDocument.load` would throw) together with the save-option layout it was
  serialised with; `copyPages`, `addPage`, `drawText`, `drawImage`,
  `embedJpg`, `embedPng` act on that representation.  A library call that
  throws is an `Except.error ()`.
* Each event handler is a pure function from its inputs to an `Outcome`
  recording the processed file handed to onFileProcessed, the toasts shown,
  the final value of the processing flag, and the network requests issued.
-/

/-! ## JavaScript string primitives (modelled on lists of characters) -/

/-- Whitespace recognised by the JavaScript trim / parseInt model. -/
def jsIsWhitespace (c : Char) : Bool :=
  c = ' ' || c = '\t' || c = '\n' || c = '\r'

/-- Model of JavaScript String.prototype.split with a single-character
separator: always returns at least one (possibly empty) token. -/
def jsSplit (sep : Char) : List Char → List (List Char)
  | [] => [[]]
  | c :: cs =>
    if c = sep then [] :: jsSplit sep cs
    else (c :: (jsSplit sep cs).headI) :: (jsSplit sep cs).tail

/-- Model of JavaScript String.prototype.trim. -/
def jsTrim (s : List Char) : List Char :=
  ((s.dropWhile jsIsWhitespace).reverse.dropWhile jsIsWhitespace).reverse

/-- Numeric value of a decimal digit character. -/
def digitVal (c : Char) : Nat := c.toNat - 48

/-- Value of a string of decimal digits, most significant first. -/
def digitsToNat (s : List Char) : Nat :=
  s.foldl (fun a c => 10 * a + digitVal c) 0

/-- The leading run of decimal digits of a string, as a number; `none` when
the string does not start with a digit (parseInt would return NaN). -/
def parseDigits (s : List Char) : Option Nat :=
  let ds := s.takeWhile Char.isDigit
  if ds.isEmpty then none else some (digitsToNat ds)

/-- Model of JavaScript parseInt in base 10: skip leading whitespace, read an
optional sign and then the longest digit prefix; `none` models NaN. -/
def jsParseInt (s : List Char) : Option Int :=
  match s.dropWhile jsIsWhitespace with
  | [] => none
  | c :: rest =>
    if c = '-' then (parseDigits rest).map (fun n => -(n : Int))
    else if c = '+' then (parseDigits rest).map (fun n => (n : Int))
    else (parseDigits (c :: rest)).map (fun n => (n : Int))

/-- Model of JavaScript String.prototype.startsWith on Lean strings. -/
def jsStartsWith (s pre : String) : Bool :=
  List.isPrefixOf pre.data s.data

/-! ## The pdf-lib document model -/

/-- A decoded image as pdf-lib exposes it: intrinsic width and height plus the
(abstract) pixel data. -/
structure ImageInfo where
  width : Int
  height : Int
  data : List Nat
deriving DecidableEq

/-- Arguments of a page.drawText call. -/
structure TextOp where
  content : String
  x : Int
  y : Int
  size : Nat
  r : Nat
  g : Nat
  b : Nat
deriving DecidableEq

/-- Content drawn onto a page by the application. -/
inductive PageElem where
  | text (t : TextOp)
  | image (img : ImageInfo) (x y w h : Int)
deriving DecidableEq

/-- A PDF page: its media box size and the content the application drew on it
on top of whatever the page already contained. -/
structure Page where
  width : Int
  height : Int
  elems : List PageElem
deriving DecidableEq, Inhabited

/-- A loaded PDFDocument is its list of pages. -/
abbrev PdfDoc := List Page

/-- Options of PDFDocument.save that the code passes explicitly. -/
structure SaveOpts where
  useObjectStreams : Bool
  addDefaultPage : Bool
deriving DecidableEq, Inhabited

/-- A PDF byte string, represented by the document it parses to (`none` when
loading would throw) and the layout options it was serialised with. -/
structure PdfBytes where
  parsed : Option PdfDoc
  layout : SaveOpts := ⟨true, true⟩
deriving DecidableEq

/-- PDFDocument.load: throws on bytes that do not parse as a PDF. -/
def PdfLib.load (b : PdfBytes) : Except Unit PdfDoc :=
  match b.parsed with
  | some d => .ok d
  | none => .error ()

/-- PDFDocument.create: an empty document. -/
def PdfLib.create : PdfDoc := []

/-- PDFDocument.save with explicit options. -/
def PdfLib.saveWith (opts : SaveOpts) (d : PdfDoc) : PdfBytes := ⟨some d, opts⟩

/-- PDFDocument.save with the default options. -/
def PdfLib.save (d : PdfDoc) : PdfBytes := PdfLib.saveWith ⟨true, true⟩ d

/-- Copy one page by (possibly NaN, possibly negative) index; out-of-range
indices make pdf-lib throw. -/
def PdfLib.copyPage (d : PdfDoc) : Option Int → Except Unit Page
  | none => .error ()
  | some i =>
    if i < 0 then .error ()
    else if h : i.toNat < d.length then .ok (d.get ⟨i.toNat, h⟩)
    else .error ()

/-- PDFDocument.copyPages: copies the pages at the given indices, in order. -/
def PdfLib.copyPages (d : PdfDoc) : List (Option Int) → Except Unit (List Page)
  | [] => .ok []
  | oi :: rest =>
    match PdfLib.copyPage d oi with
    | .error e => .error e
    | .ok p =>
      match PdfLib.copyPages d rest with
      | .error e => .error e
      | .ok ps => .ok (p :: ps)

/-- PDFDocument.addPage with an existing (copied) page. -/
def PdfLib.addPage (d : PdfDoc) (p : Page) : PdfDoc := d ++ [p]

/-- PDFDocument.getPageIndices. -/
def PdfLib.getPageIndices (d : PdfDoc) : List Nat := List.range d.length

/-- PDFDocument.getPages. -/
def PdfLib.getPages (d : PdfDoc) : List Page := d

/-- Replace the element at an index, when it exists. -/
def listModify {α : Type} (f : α → α) : Nat → List α → List α
  | _, [] => []
  | 0, a :: as => f a :: as
  | n + 1, a :: as => a :: listModify f n as

/-- PDFDocument.addPage sized as a fresh empty page; returns the new document
and a reference (the index) to the added page. -/
def PdfLib.addPageSized (d : PdfDoc) (w h : Int) : PdfDoc × Nat :=
  (d ++ [⟨w, h, []⟩], d.length)

/-- page.drawImage on the page referenced by an index. -/
def PdfLib.drawImage (d : PdfDoc) (pi : Nat) (img : ImageInfo) (x y w h : Int) :
    PdfDoc :=
  listModify (fun p => { p with elems := p.elems ++ [PageElem.image img x y w h] }) pi d

/-- page.drawText on the page referenced by an index. -/
def PdfLib.drawText (d : PdfDoc) (pi : Nat) (t : TextOp) : PdfDoc :=
  listModify (fun p => { p with elems := p.elems ++ [PageElem.text t] }) pi d

/-! ## Uploaded files, toasts, network requests and handler outcomes -/

/-- An uploaded browser File: name, MIME type, byte size, and the result of
decoding its bytes with each decoder the application can apply to them. -/
structure File where
  name : String
  type : String
  size : Nat
  bytes : PdfBytes
  jpgDecode : Option ImageInfo
  pngDecode : Option ImageInfo
deriving DecidableEq

/-- PDFDocument.embedJpg applied to a file's bytes: throws unless the bytes
decode as a JPEG image. -/
def PdfLib.embedJpg (f : File) : Except Unit ImageInfo :=
  match f.jpgDecode with
  | some img => .ok img
  | none => .error ()

/-- PDFDocument.embedPng applied to a file's bytes: throws unless the bytes
decode as a PNG image. -/
def PdfLib.embedPng (f : File) : Except Unit ImageInfo :=
  match f.pngDecode with
  | some img => .ok img
  | none => .error ()

/-- Variant of a toast notification. -/
inductive ToastVariant where
  | default
  | destructive
deriving DecidableEq

/-- A toast, reduced to its variant and the count its description reports,
when it reports one. -/
structure Toast where
  variant : ToastVariant
  reported : Option Nat
deriving DecidableEq

/-- URL scheme of a request: a data URL is resolved inside the browser, an
https URL reaches a network endpoint. -/
inductive Scheme where
  | data
  | https
deriving DecidableEq

/-- A request issued by the page, with the payload it carries, if any. -/
structure NetRequest where
  scheme : Scheme
  host : String
  body : Option (List Nat)
deriving DecidableEq

/-- Everything observable a toolbar handler does: the file passed to
onFileProcessed (if any), the toasts shown, the value of the processing flag
when the handler finishes, and the network requests issued. -/
structure Outcome where
  processed : Option PdfBytes
  toasts : List Toast
  processing : Bool
  net : List NetRequest
deriving DecidableEq

/-- Outcome of both the guard branches and the catch branches: no processed
file, one destructive toast, processing flag false, no network traffic. -/
def errorOutcome : Outcome := ⟨none, [⟨ToastVariant.destructive, none⟩], false, []⟩

/-- Index.tsx handleFileProcessed: appends the processed file (when the
handler produced one) to the processed-files list. -/
def applyProcessed (o : Outcome) (prev : List PdfBytes) : List PdfBytes :=
  match o.processed with
  | some b => prev ++ [b]
  | none => prev

/-! ## PDFToolbar.tsx: handleSplitPDF -/

/-- One entry of the split page-range parse:
Array.from(\x7blength: end - start + 1\x7d, (_, i) => start + i), where a NaN
length collapses to an empty array. -/
def jsRangeArray (s e : Option Int) : List (Option Int) :=
  match s, e with
  | some a, some b => (List.range (b - a + 1).toNat).map (fun (i : Nat) => some (a + (i : Int)))
  | _, _ => []

/-- Parse of one comma-separated token of the page-range string, exactly as
handleSplitPDF does it (1-based numbers become 0-based indices; NaN is
`none`). -/
def parseToken (tok : List Char) : List (Option Int) :=
  if '-' ∈ tok then
    match (jsSplit '-' tok).map (fun p => (jsParseInt (jsTrim p)).map (fun n => n - 1)) with
    | s :: e :: _ => jsRangeArray s e
    | _ => []
  else [(jsParseInt (jsTrim tok)).map (fun n => n - 1)]

/-- The page-range parse of handleSplitPDF:
splitPages.split(',').map(...).flat(). -/
def parsePageRanges (s : List Char) : List (Option Int) :=
  ((jsSplit ',' s).map parseToken).flatten

/-- The try block of handleSplitPDF: load the first file, copy the parsed
pages into a fresh document, save it; also returns the page count the success
toast reports. -/
def splitTry (f : File) (splitPages : List Char) : Except Unit (PdfBytes × Nat) :=
  match PdfLib.load f.bytes with
  | .error e => .error e
  | .ok pdfDoc =>
    let pages := parsePageRanges splitPages
    match PdfLib.copyPages pdfDoc pages with
    | .error e => .error e
    | .ok copiedPages =>
      .ok (PdfLib.save (copiedPages.foldl PdfLib.addPage PdfLib.create), pages.length)

/-- handleSplitPDF: guard on the uploaded files, then the try/catch body. -/
def handleSplitPDF (files : List File) (splitPages : List Char) : Outcome :=
  match files with
  | [] => errorOutcome
  | f :: _ =>
    if f.type = "application/pdf" then
      match splitTry f splitPages with
      | .ok (bytes, n) => ⟨some bytes, [⟨ToastVariant.default, some n⟩], false, []⟩
      | .error _ => errorOutcome
    else errorOutcome

/-! ## PDFToolbar.tsx: handleMergePDFs -/

/-- Predicate the merge handler filters the uploaded files with. -/
def isPdfType (f : File) : Bool := f.type = "application/pdf"

/-- The for-loop of handleMergePDFs: for each index of mergeOrder that is in
range of the filtered PDF list, load that file, copy all of its pages and add
them to the accumulating merged document. -/
def mergeLoop (pdfFiles : List File) : List Nat → PdfDoc → Except Unit PdfDoc
  | [], acc => .ok acc
  | i :: rest, acc =>
    if h : i < pdfFiles.length then
      match PdfLib.load (pdfFiles.get ⟨i, h⟩).bytes with
      | .error e => .error e
      | .ok pdf =>
        match PdfLib.copyPages pdf ((PdfLib.getPageIndices pdf).map (fun (j : Nat) => some ((j : Int)))) with
        | .error e => .error e
        | .ok pages => mergeLoop pdfFiles rest (pages.foldl PdfLib.addPage acc)
    else mergeLoop pdfFiles rest acc

/-- The try block of handleMergePDFs. -/
def mergeTry (pdfFiles : List File) (order : List Nat) : Except Unit PdfBytes :=
  match mergeLoop pdfFiles order PdfLib.create with
  | .error e => .error e
  | .ok mergedPdf => .ok (PdfLib.save mergedPdf)

/-- handleMergePDFs: guard on the number of PDF files, then the try/catch
body.  mergeOrder is component state that a useEffect keeps equal to
files.map((_, index) => index). -/
def handleMergePDFs (files : List File) (mergeOrder : List Nat) : Outcome :=
  let pdfFiles := files.filter isPdfType
  if pdfFiles.length < 2 then errorOutcome
  else
    match mergeTry pdfFiles mergeOrder with
    | .ok bytes => ⟨some bytes, [⟨ToastVariant.default, some pdfFiles.length⟩], false, []⟩
    | .error _ => errorOutcome

/-! ## PDFToolbar.tsx: handleImageToPDF -/

/-- Predicate the image-to-PDF handler filters the uploaded files with:
file.type.startsWith('image/'). -/
def isImageType (f : File) : Bool := jsStartsWith f.type "image/"

/-- addPage([image.width, image.height]) followed by page.drawImage(image,
\x7bx: 0, y: 0, width: image.width, height: image.height\x7d). -/
def addImagePage (d : PdfDoc) (image : ImageInfo) : PdfDoc :=
  let dp := PdfLib.addPageSized d image.width image.height
  PdfLib.drawImage dp.1 dp.2 image 0 0 image.width image.height

/-- The for-loop of handleImageToPDF: embed each JPEG or PNG file and give it
its own page; any other image subtype hits the `continue`. -/
def imageLoop : List File → PdfDoc → Except Unit PdfDoc
  | [], acc => .ok acc
  | f :: rest, acc =>
    if f.type = "image/jpeg" ∨ f.type = "image/jpg" then
      match PdfLib.embedJpg f with
      | .error e => .error e
      | .ok image => imageLoop rest (addImagePage acc image)
    else if f.type = "image/png" then
      match PdfLib.embedPng f with
      | .error e => .error e
      | .ok image => imageLoop rest (addImagePage acc image)
    else imageLoop rest acc

/-- The try block of handleImageToPDF. -/
def imageTry (imageFiles : List File) : Except Unit PdfBytes :=
  match imageLoop imageFiles PdfLib.create with
  | .error e => .error e
  | .ok pdfDoc => .ok (PdfLib.save pdfDoc)

/-- handleImageToPDF: guard on the presence of image files, then the
try/catch body. -/
def handleImageToPDF (files : List File) : Outcome :=
  let imageFiles := files.filter isImageType
  if imageFiles.length = 0 then errorOutcome
  else
    match imageTry imageFiles with
    | .ok bytes => ⟨some bytes, [⟨ToastVariant.default, some imageFiles.length⟩], false, []⟩
    | .error _ => errorOutcome

/-! ## PDFToolbar.tsx: handleCompressPDF -/

/-- The save options handleCompressPDF passes:
\x7buseObjectStreams: false, addDefaultPage: false\x7d. -/
def compressSaveOpts : SaveOpts := ⟨false, false⟩

/-- The try block of handleCompressPDF: load the first file and save it again
with the explicit options. -/
def compressTry (f : File) : Except Unit PdfBytes :=
  match PdfLib.load f.bytes with
  | .error e => .error e
  | .ok pdfDoc => .ok (PdfLib.saveWith compressSaveOpts pdfDoc)

/-- handleCompressPDF.  The compressionLevel slider state (10 to 100) is in
scope in the component but the handler body never reads it. -/
def handleCompressPDF (files : List File) (compressionLevel : Nat) : Outcome :=
  match files with
  | [] => errorOutcome
  | f :: _ =>
    if f.type = "application/pdf" then
      match compressTry f with
      | .ok bytes => ⟨some bytes, [⟨ToastVariant.default, none⟩], false, []⟩
      | .error _ => errorOutcome
    else errorOutcome

/-! ## PDFToolbar.tsx: handleEditPDF -/

/-- The literal text handleEditPDF draws. -/
def sampleEditText : String := "Sample Edit - Text Added by PDF Forge"

/-- The try block of handleEditPDF: load the first file and draw the sample
text on pages[0] at x = 50, y = height - 50, size 12, rgb(1, 0, 0).  When the
document has no pages, pages[0] is undefined and the member access throws. -/
def editTry (f : File) : Except Unit PdfBytes :=
  match PdfLib.load f.bytes with
  | .error e => .error e
  | .ok pdfDoc =>
    match PdfLib.getPages pdfDoc with
    | [] => .error ()
    | firstPage :: _ =>
      .ok (PdfLib.save (PdfLib.drawText pdfDoc 0
        ⟨sampleEditText, 50, firstPage.height - 50, 12, 1, 0, 0⟩))

/-- handleEditPDF: guard on the uploaded files, then the try/catch body. -/
def handleEditPDF (files : List File) : Outcome :=
  match files with
  | [] => errorOutcome
  | f :: _ =>
    if f.type = "application/pdf" then
      match editTry f with
      | .ok bytes => ⟨some bytes, [⟨ToastVariant.default, none⟩], false, []⟩
      | .error _ => errorOutcome
    else errorOutcome

/-! ## FileUploader.tsx: handleFiles -/

/-- The 50MB limit of FileUploader. -/
def fileSizeLimit : Nat := 50 * 1024 * 1024

/-- The filter predicate inside handleFiles: reject non-PDF non-image files,
then reject files over the size limit. -/
def fileValid (f : File) : Bool :=
  if ¬ (isPdfType f || isImageType f) then false
  else if f.size > fileSizeLimit then false
  else true

/-- The toast the filter shows for a rejected file (`none` when the file is
accepted). -/
def rejectToast (f : File) : Option Toast :=
  if ¬ (isPdfType f || isImageType f) then some ⟨ToastVariant.destructive, none⟩
  else if f.size > fileSizeLimit then some ⟨ToastVariant.destructive, none⟩
  else none

/-- handleFiles: filter the offered batch, toast each rejection, and (when
anything survived) append the accepted files to the current list. -/
def handleFiles (uploadedFiles : List File) (files : List File) :
    List File × List Toast :=
  let validFiles := files.filter fileValid
  let toasts := files.filterMap rejectToast
  (if validFiles.length > 0 then uploadedFiles ++ validFiles else uploadedFiles,
   toasts)

/-! ## PDFEditor.tsx (fabric variant): canvas state, undo, redo, save -/

/-- An object on the fabric canvas (identity only). -/
structure CanvasObj where
  id : Nat
deriving DecidableEq, Inhabited

/-- The fabric.js canvas: its size and its scene-graph objects in insertion
order. -/
structure CanvasState where
  width : Int
  height : Int
  objects : List CanvasObj
deriving DecidableEq

/-- The fabric.js calls a handler makes. -/
inductive FabricCall where
  | getObjects
  | remove (o : CanvasObj)
deriving DecidableEq

/-- The PDFEditor component state that undo/redo reads and writes. -/
structure EditorState where
  fabricCanvas : Option CanvasState
  canUndo : Bool
  canRedo : Bool
deriving DecidableEq

/-- Observable effect of an editor action: the new component state, the
fabric.js calls made, and the toasts shown. -/
structure EditorStep where
  state : EditorState
  calls : List FabricCall
  toasts : List Toast
deriving DecidableEq

/-- handleUndo: when a canvas exists, canUndo holds and the canvas has
objects, remove the last object and recompute canUndo/canRedo
(updateUndoRedo sets canRedo to false). -/
def handleUndo (s : EditorState) : EditorStep :=
  match s.fabricCanvas with
  | none => ⟨s, [], []⟩
  | some c =>
    if s.canUndo then
      if c.objects.length > 0 then
        let objects2 := c.objects.dropLast
        ⟨{ fabricCanvas := some { c with objects := objects2 },
           canUndo := decide (objects2.length > 0), canRedo := false },
         [FabricCall.getObjects, FabricCall.remove (c.objects.getLast?.getD default)],
         []⟩
      else ⟨s, [FabricCall.getObjects], []⟩
    else ⟨s, [], []⟩

/-- The toast handleRedo shows: "Redo functionality coming soon!". -/
def comingSoonToast : Toast := ⟨ToastVariant.default, none⟩

/-- handleRedo: shows the coming-soon toast and does nothing else. -/
def handleRedo (s : EditorState) : EditorStep := ⟨s, [], [comingSoonToast]⟩

/-- The PNG pixel data of fabricCanvas.toDataURL, as a function of the scene
graph. -/
def canvasPngData (c : CanvasState) : List Nat := c.objects.map CanvasObj.id

/-- The image that embedPng recovers from the canvas data URL. -/
def canvasDataUrlImage (c : CanvasState) : ImageInfo :=
  ⟨c.width, c.height, canvasPngData c⟩

/-- The one request handleSave issues: fetch(dataURL), a data: URL resolved
inside the browser. -/
def dataUrlFetch (c : CanvasState) : NetRequest :=
  ⟨Scheme.data, "", some (canvasPngData c)⟩

/-- handleSave of the fabric PDFEditor: rasterise the canvas to a PNG data
URL, fetch it back as bytes, embed it in a fresh one-page document of the
canvas size and save. -/
def handleSave (fabricCanvas : Option CanvasState) : Outcome :=
  match fabricCanvas with
  | none => ⟨none, [], false, []⟩
  | some c =>
    let image := canvasDataUrlImage c
    let dp := PdfLib.addPageSized PdfLib.create c.width c.height
    ⟨some (PdfLib.save (PdfLib.drawImage dp.1 dp.2 image 0 0 c.width c.height)),
     [⟨ToastVariant.default, none⟩], false, [dataUrlFetch c]⟩

/-- The module-level pdf.js worker script request of PDFCanvas.tsx: a fixed
cdnjs URL that carries no request body. -/
def pdfJsWorkerRequest : NetRequest := ⟨Scheme.https, "cdnjs.cloudflare.com", none⟩

/-- All requests PDFCanvas.tsx causes outside the handlers. -/
def pdfCanvasModuleRequests : List NetRequest := [pdfJsWorkerRequest]

/-- A request transmits nothing to a network endpoint when it is a locally
resolved data URL or carries no body. -/
def networkSafe (r : NetRequest) : Prop := r.scheme = Scheme.data ∨ r.body = none

/-! ## Spec-side definitions (the claims' own vocabulary) -/

/-- One item of a page-range string: a 1-based page number or a dashed range
a-b. -/
inductive RangeToken where
  | single (n : Nat)
  | range (a b : Nat)
deriving DecidableEq

/-- Decimal rendering of a number. -/
def renderNat (n : Nat) : List Char :=
  if h : n < 10 then [Char.ofNat (48 + n)]
  else renderNat (n / 10) ++ [Char.ofNat (48 + n % 10)]
decreasing_by exact Nat.div_lt_self (by omega) (by omega)

/-- Text of one item of a page-range string. -/
def renderToken : RangeToken → List Char
  | .single n => renderNat n
  | .range a b => renderNat a ++ '-' :: renderNat b

/-- Comma-free interleaving of tokens with a separator character. -/
def intercalateChar (sep : Char) : List (List Char) → List Char
  | [] => []
  | t :: ts =>
    match ts with
    | [] => t
    | _ :: _ => t ++ sep :: intercalateChar sep ts

/-- The page-range string made of the given items, comma separated. -/
def renderRanges (ts : List RangeToken) : List Char :=
  intercalateChar ',' (ts.map renderToken)

/-- The list of 1-based pages a page-range item denotes, per the claim: a
single number denotes itself and a range a-b denotes a through b
inclusive. -/
def denoteToken : RangeToken → List Nat
  | .single n => [n]
  | .range a b => (List.range (b + 1 - a)).map (fun i => a + i)

/-- The listed pages of a whole page-range string, in the order they appear. -/
def denoteRanges (ts : List RangeToken) : List Nat :=
  (ts.map denoteToken).flatten

/-- A page-range item is well formed for a document of N pages when its
numbers are between 1 and N and a range is increasing. -/
def tokenWF (N : Nat) : RangeToken → Bool
  | .single n => decide (1 ≤ n) && decide (n ≤ N)
  | .range a b => decide (1 ≤ a) && decide (a ≤ b) && decide (b ≤ N)

/-- The acceptance predicate of the uploader claim: a PDF or image MIME type
and at most 50 MiB. -/
def acceptSpec (f : File) : Bool :=
  (f.type = "application/pdf" || jsStartsWith f.type "image/")
    && decide (f.size ≤ 52428800)

/-- The page a supported image file contributes, per the image-to-PDF claim:
a page of the image's size with the image drawn at (0,0) filling it. -/
def imagePage (img : ImageInfo) : Page :=
  ⟨img.width, img.height, [PageElem.image img 0 0 img.width img.height]⟩

/-- The page an uploaded file contributes to the image-to-PDF output, when it
contributes one. -/
def imagePageOpt (f : File) : Option Page :=
  if f.type = "image/jpeg" ∨ f.type = "image/jpg" then f.jpgDecode.map imagePage
  else if f.type = "image/png" then f.pngDecode.map imagePage
  else none

/-! ### Library-call compositions (the delegation claims' vocabulary) -/

/-- load; copyPages; addPage each copied page to a fresh document; save —
the split operation as a straight composition of pdf-lib primitives. -/
def splitComposition (b : PdfBytes) (idxs : List (Option Int)) :
    Except Unit PdfBytes :=
  match PdfLib.load b with
  | .error e => .error e
  | .ok src =>
    match PdfLib.copyPages src idxs with
    | .error e => .error e
    | .ok copied => .ok (PdfLib.save (copied.foldl PdfLib.addPage PdfLib.create))

/-- PDFDocument.load on every byte string of a list, stopping at the first
failure. -/
def loadAll : List PdfBytes → Except Unit (List PdfDoc)
  | [] => .ok []
  | b :: rest =>
    match PdfLib.load b with
    | .error e => .error e
    | .ok d =>
      match loadAll rest with
      | .error e => .error e
      | .ok ds => .ok (d :: ds)

/-- copyPages at all page indices, on every document of a list. -/
def copyAllPages : List PdfDoc → Except Unit (List (List Page))
  | [] => .ok []
  | d :: rest =>
    match PdfLib.copyPages d ((PdfLib.getPageIndices d).map (fun (j : Nat) => some ((j : Int)))) with
    | .error e => .error e
    | .ok ps =>
      match copyAllPages rest with
      | .error e => .error e
      | .ok pss => .ok (ps :: pss)

/-- load each document; copy all of its pages; addPage everything, in order,
to a fresh document; save — the merge operation as a composition of pdf-lib
primitives. -/
def mergeComposition (bs : List PdfBytes) : Except Unit PdfBytes :=
  match loadAll bs with
  | .error e => .error e
  | .ok docs =>
    match copyAllPages docs with
    | .error e => .error e
    | .ok copied =>
      .ok (PdfLib.save (copied.flatten.foldl PdfLib.addPage PdfLib.create))

/-- embedJpg or embedPng on each file of a list, paired with the page it is
drawn on; unsupported subtypes contribute nothing. -/
def embedPages : List File → Except Unit (List (Option Page))
  | [] => .ok []
  | f :: rest =>
    match (if f.type = "image/jpeg" ∨ f.type = "image/jpg" then
             match PdfLib.embedJpg f with
             | .error e => .error e
             | .ok img => .ok (some (imagePage img))
           else if f.type = "image/png" then
             match PdfLib.embedPng f with
             | .error e => .error e
             | .ok img => .ok (some (imagePage img))
           else .ok none : Except Unit (Option Page)) with
    | .error e => .error e
    | .ok p =>
      match embedPages rest with
      | .error e => .error e
      | .ok ps => .ok (p :: ps)

/-- embed each supported image; addPage each resulting page to a fresh
document; save — the image-to-PDF operation as a composition of pdf-lib
primitives. -/
def imagesComposition (files : List File) : Except Unit PdfBytes :=
  match embedPages files with
  | .error e => .error e
  | .ok ps => .ok (PdfLib.save (ps.reduceOption.foldl PdfLib.addPage PdfLib.create))

/-- load; save with the explicit options — the compress operation as a
composition of pdf-lib primitives. -/
def compressComposition (b : PdfBytes) : Except Unit PdfBytes :=
  match PdfLib.load b with
  | .error e => .error e
  | .ok d => .ok (PdfLib.saveWith compressSaveOpts d)

/-- load; drawText on the first page; save — the edit operation as a
composition of pdf-lib primitives. -/
def editComposition (b : PdfBytes) : Except Unit PdfBytes :=
  match PdfLib.load b with
  | .error e => .error e
  | .ok d =>
    match PdfLib.getPages d with
    | [] => .error ()
    | firstPage :: _ =>
      .ok (PdfLib.save (PdfLib.drawText d 0
        ⟨sampleEditText, 50, firstPage.height - 50, 12, 1, 0, 0⟩))

/-- create; addPage of the canvas size; embedPng of the rasterised canvas;
drawImage filling the page; save — the editor save operation as a
composition of pdf-lib primitives. -/
def saveComposition (c : CanvasState) : PdfBytes :=
  let image := canvasDataUrlImage c
  let dp := PdfLib.addPageSized PdfLib.create c.width c.height
  PdfLib.save (PdfLib.drawImage dp.1 dp.2 image 0 0 c.width c.height)

/-- A formal reading of the spec sentence that undo/redo are carried out by
the canvas library: whenever a canvas exists and redo is available, the redo
handler performs some fabric.js call or changes the editor state. -/
def undoRedoDelegated : Prop :=
  ∀ s : EditorState, s.fabricCanvas.isSome → s.canRedo = true →
    (handleRedo s).calls ≠ [] ∨ (handleRedo s).state ≠ s

/-! ### Concrete sample inputs for the witnesses -/

/-- A three-page document. -/
def sampleDoc : PdfDoc := [⟨600, 800, []⟩, ⟨601, 801, []⟩, ⟨602, 802, []⟩]

/-- A well-formed uploaded PDF file whose bytes parse to sampleDoc. -/
def samplePdfFile : File :=
  ⟨"doc.pdf", "application/pdf", 1000, ⟨some sampleDoc, ⟨true, true⟩⟩, none, none⟩

/-- A second well-formed uploaded PDF file, with one page. -/
def samplePdfFile2 : File :=
  ⟨"doc2.pdf", "application/pdf", 500, ⟨some [⟨610, 790, []⟩], ⟨true, true⟩⟩, none, none⟩

/-- An uploaded file with a PDF MIME type whose bytes do not parse, so that
PDFDocument.load throws on it. -/
def badPdfFile : File :=
  ⟨"bad.pdf", "application/pdf", 10, ⟨none, ⟨true, true⟩⟩, none, none⟩

/-- An uploaded PNG image file. -/
def samplePngFile : File :=
  ⟨"a.png", "image/png", 200, ⟨none, ⟨true, true⟩⟩, none, some ⟨10, 20, [7]⟩⟩

/-- An uploaded image file with an unsupported subtype. -/
def sampleGifFile : File :=
  ⟨"a.gif", "image/gif", 300, ⟨none, ⟨true, true⟩⟩, none, none⟩

/-- An uploaded file that is neither a PDF nor an image. -/
def sampleTextFile : File :=
  ⟨"a.txt", "text/plain", 5, ⟨none, ⟨true, true⟩⟩, none, none⟩

/-- A PNG image file whose bytes do not decode, so that embedPng throws. -/
def badPngFile : File :=
  ⟨"bad.png", "image/png", 10, ⟨none, ⟨true, true⟩⟩, none, none⟩

/-- The sample page-range items: the string 1-2,3. -/
def sampleTokens : List RangeToken := [RangeToken.range 1 2, RangeToken.single 3]

/-- A canvas with two objects. -/
def sampleCanvas : CanvasState := ⟨800, 600, [⟨1⟩, ⟨2⟩]⟩

/-- An editor state with a canvas present and, counterfactually, redo marked
available. -/
def sampleEditorState : EditorState := ⟨some sampleCanvas, false, true⟩

/-- The 0-based page index handleSplitPDF computes for a 1-based page
number. -/
def toZeroBased (n : Nat) : Option Int := some ((n : Int) - 1)

/-- The ten decimal digit characters. -/
def digitChars : List Char := ['0', '1', '2', '3', '4', '5', '6', '7', '8', '9']

/-! ## Helper lemmas: strings and decimal rendering -/

theorem jsSplit_ne_nil (sep : Char) (s : List Char) : jsSplit sep s ≠ [] := by
  cases s with
  | nil => simp [jsSplit]
  | cons c cs => by_cases h : c = sep <;> simp [jsSplit, h]

theorem headI_cons_tail {α : Type} [Inhabited α] (l : List α) (h : l ≠ []) :
    l.headI :: l.tail = l := by
  cases l with
  | nil => exact absurd rfl h
  | cons a as => rfl

theorem jsSplit_append (sep : Char) (t l : List Char) (ht : sep ∉ t) :
    jsSplit sep (t ++ l) = (t ++ (jsSplit sep l).headI) :: (jsSplit sep l).tail := by
  induction t with
  | nil =>
    simp only [List.nil_append]
    exact (headI_cons_tail _ (jsSplit_ne_nil sep l)).symm
  | cons c cs ih =>
    have hc : c ≠ sep := fun h => ht (h ▸ List.mem_cons_self c cs)
    have hcs : sep ∉ cs := fun h => ht (List.mem_cons_of_mem c h)
    simp only [List.cons_append, jsSplit, if_neg hc, List.append_eq]
    rw [ih hcs]
    simp

theorem jsSplit_intercalate (sep : Char) :
    ∀ ts : List (List Char), ts ≠ [] → (∀ t ∈ ts, sep ∉ t) →
      jsSplit sep (intercalateChar sep ts) = ts := by
  intro ts
  induction ts with
  | nil => intro h _; exact absurd rfl h
  | cons t rest ih =>
    intro _ hall
    have ht : sep ∉ t := hall t (List.mem_cons_self t rest)
    cases rest with
    | nil =>
      have h1 := jsSplit_append sep t [] ht
      simp only [List.append_nil] at h1
      simp [intercalateChar, h1, jsSplit]
    | cons t2 ts2 =>
      have hrest : ∀ u ∈ t2 :: ts2, sep ∉ u :=
        fun u hu => hall u (List.mem_cons_of_mem t hu)
      have h1 := jsSplit_append sep t
        (sep :: intercalateChar sep (t2 :: ts2)) ht
      have h2 : jsSplit sep (sep :: intercalateChar sep (t2 :: ts2)) =
          [] :: jsSplit sep (intercalateChar sep (t2 :: ts2)) := by
        simp [jsSplit]
      rw [h2, ih (by simp) hrest] at h1
      simpa [intercalateChar] using h1

theorem char_ofNat_digit_mem (n : Nat) (h : n < 10) :
    Char.ofNat (48 + n) ∈ digitChars := by
  interval_cases n <;> decide

theorem digitChars_facts :
    ∀ c ∈ digitChars,
      c ≠ ',' ∧ c ≠ '-' ∧ c ≠ '+' ∧ jsIsWhitespace c = false ∧ c.isDigit = true := by
  decide

theorem digitVal_ofNat (n : Nat) (h : n < 10) :
    digitVal (Char.ofNat (48 + n)) = n := by
  interval_cases n <;> decide

theorem renderNat_ne_nil (n : Nat) : renderNat n ≠ [] := by
  rw [renderNat]
  split <;> simp

theorem renderNat_mem (n : Nat) : ∀ c ∈ renderNat n, c ∈ digitChars := by
  induction n using Nat.strong_induction_on with
  | _ n ih =>
    rw [renderNat]
    split
    · next h =>
      intro c hc
      simp only [List.mem_singleton] at hc
      exact hc ▸ char_ofNat_digit_mem n h
    · next h =>
      intro c hc
      rcases List.mem_append.mp hc with h1 | h1
      · exact ih (n / 10) (Nat.div_lt_self (by omega) (by omega)) c h1
      · simp only [List.mem_singleton] at h1
        exact h1 ▸ char_ofNat_digit_mem (n % 10) (Nat.mod_lt _ (by omega))

theorem digitsToNat_append (l : List Char) (c : Char) :
    digitsToNat (l ++ [c]) = 10 * digitsToNat l + digitVal c := by
  simp [digitsToNat, List.foldl_append]

theorem digitsToNat_renderNat (n : Nat) : digitsToNat (renderNat n) = n := by
  induction n using Nat.strong_induction_on with
  | _ n ih =>
    rw [renderNat]
    split
    · next h =>
      simp [digitsToNat, digitVal_ofNat n h]
    · next h =>
      rw [digitsToNat_append, ih (n / 10) (Nat.div_lt_self (by omega) (by omega)),
        digitVal_ofNat _ (Nat.mod_lt _ (by omega))]
      omega

theorem dropWhile_eq_self_of (p : Char → Bool) (l : List Char)
    (h : ∀ c ∈ l, p c = false) : l.dropWhile p = l := by
  cases l with
  | nil => rfl
  | cons a as => simp [List.dropWhile, h a (List.mem_cons_self a as)]

theorem takeWhile_eq_self_of (p : Char → Bool) (l : List Char)
    (h : ∀ c ∈ l, p c = true) : l.takeWhile p = l := by
  induction l with
  | nil => rfl
  | cons a as ih =>
    simp [List.takeWhile, h a (List.mem_cons_self a as),
      ih (fun c hc => h c (List.mem_cons_of_mem a hc))]

theorem jsTrim_eq_self (l : List Char) (h : ∀ c ∈ l, jsIsWhitespace c = false) :
    jsTrim l = l := by
  unfold jsTrim
  rw [dropWhile_eq_self_of _ _ h,
    dropWhile_eq_self_of _ _ (fun c hc => h c (List.mem_reverse.mp hc)),
    List.reverse_reverse]

theorem parseDigits_renderNat (n : Nat) : parseDigits (renderNat n) = some n := by
  unfold parseDigits
  rw [takeWhile_eq_self_of _ _
    (fun c hc => (digitChars_facts c (renderNat_mem n c hc)).2.2.2.2)]
  obtain ⟨c, rest, hcr⟩ := List.exists_cons_of_ne_nil (renderNat_ne_nil n)
  have hie : (renderNat n).isEmpty = false := by rw [hcr]; rfl
  simp [hie, digitsToNat_renderNat n]

theorem jsParseInt_renderNat (n : Nat) : jsParseInt (renderNat n) = some (n : Int) := by
  obtain ⟨c, rest, hcr⟩ := List.exists_cons_of_ne_nil (renderNat_ne_nil n)
  have hc : c ∈ digitChars := renderNat_mem n c (hcr ▸ List.mem_cons_self c rest)
  have hfacts := digitChars_facts c hc
  have hdw : (renderNat n).dropWhile jsIsWhitespace = renderNat n :=
    dropWhile_eq_self_of _ _
      (fun d hd => (digitChars_facts d (renderNat_mem n d hd)).2.2.2.1)
  unfold jsParseInt
  rw [hdw]
  simp only [hcr]
  rw [if_neg hfacts.2.1, if_neg hfacts.2.2.1, ← hcr, parseDigits_renderNat]
  rfl

theorem jsTrim_renderNat (n : Nat) : jsTrim (renderNat n) = renderNat n :=
  jsTrim_eq_self _
    (fun c hc => (digitChars_facts c (renderNat_mem n c hc)).2.2.2.1)

theorem dash_notin_renderNat (n : Nat) : '-' ∉ renderNat n := by
  intro h
  exact (digitChars_facts _ (renderNat_mem n _ h)).2.1 rfl

theorem comma_notin_renderToken (t : RangeToken) : ',' ∉ renderToken t := by
  cases t with
  | single n =>
    intro h
    exact (digitChars_facts _ (renderNat_mem n _ h)).1 rfl
  | range a b =>
    intro h
    rcases List.mem_append.mp h with h1 | h1
    · exact (digitChars_facts _ (renderNat_mem a _ h1)).1 rfl
    · rcases List.mem_cons.mp h1 with h2 | h2
      · exact absurd h2 (by decide)
      · exact (digitChars_facts _ (renderNat_mem b _ h2)).1 rfl

theorem parseToken_single (n : Nat) :
    parseToken (renderNat n) = [some ((n : Int) - 1)] := by
  unfold parseToken
  rw [if_neg (dash_notin_renderNat n), jsTrim_renderNat, jsParseInt_renderNat]
  rfl

theorem jsSplit_singleton (sep : Char) (t : List Char) (ht : sep ∉ t) :
    jsSplit sep t = [t] := by
  have := jsSplit_intercalate sep [t] (by simp) (by simpa using ht)
  simpa [intercalateChar] using this

theorem parseToken_range (a b : Nat) :
    parseToken (renderNat a ++ '-' :: renderNat b) =
      jsRangeArray (some ((a : Int) - 1)) (some ((b : Int) - 1)) := by
  have hmem : '-' ∈ renderNat a ++ '-' :: renderNat b :=
    List.mem_append_right _ (List.mem_cons_self _ _)
  have hsplitb : jsSplit '-' ('-' :: renderNat b) = [] :: [renderNat b] := by
    rw [show jsSplit '-' ('-' :: renderNat b) = [] :: jsSplit '-' (renderNat b) by
      simp [jsSplit]]
    rw [jsSplit_singleton '-' (renderNat b) (dash_notin_renderNat b)]
  have hsplit : jsSplit '-' (renderNat a ++ '-' :: renderNat b) =
      [renderNat a, renderNat b] := by
    rw [jsSplit_append '-' (renderNat a) ('-' :: renderNat b) (dash_notin_renderNat a),
      hsplitb]
    simp
  unfold parseToken
  rw [if_pos hmem, hsplit]
  simp [jsTrim_renderNat, jsParseInt_renderNat]

theorem jsRangeArray_denote (a b : Nat) :
    jsRangeArray (some ((a : Int) - 1)) (some ((b : Int) - 1)) =
      (denoteToken (RangeToken.range a b)).map toZeroBased := by
  have hlen : ((b : Int) - 1 - ((a : Int) - 1) + 1).toNat = b + 1 - a := by omega
  simp only [jsRangeArray, denoteToken, hlen, List.map_map]
  apply List.map_congr_left
  intro i _
  simp only [Function.comp_apply, toZeroBased]
  congr 1
  push_cast
  ring

theorem parseToken_render (t : RangeToken) :
    parseToken (renderToken t) = (denoteToken t).map toZeroBased := by
  cases t with
  | single n =>
    simp [renderToken, parseToken_single, denoteToken, toZeroBased]
  | range a b =>
    rw [renderToken, parseToken_range, jsRangeArray_denote]

theorem flatten_map_map {α β γ : Type} (ts : List α) (h : α → List β) (g : β → γ) :
    (ts.map (fun t => (h t).map g)).flatten = ((ts.map h).flatten).map g := by
  induction ts with
  | nil => rfl
  | cons t rest ih => simp [ih]

theorem parsePageRanges_render (ts : List RangeToken) (hne : ts ≠ []) :
    parsePageRanges (renderRanges ts) = (denoteRanges ts).map toZeroBased := by
  unfold parsePageRanges renderRanges
  rw [jsSplit_intercalate ',' (ts.map renderToken) (by simpa using hne)
    (by intro tok htok
        obtain ⟨t, _, rfl⟩ := List.mem_map.mp htok
        exact comma_notin_renderToken t)]
  rw [List.map_map]
  have : (fun t => parseToken (renderToken t)) = fun t => (denoteToken t).map toZeroBased := by
    funext t
    exact parseToken_render t
  rw [show parseToken ∘ renderToken = fun t => (denoteToken t).map toZeroBased from this]
  rw [flatten_map_map]
  rfl

theorem copyPages_map_some (d : PdfDoc) (idxs : List Nat)
    (h : ∀ i ∈ idxs, i < d.length) :
    PdfLib.copyPages d (idxs.map (fun (i : Nat) => some ((i : Int)))) =
      .ok (idxs.map (fun i => d.getD i default)) := by
  induction idxs with
  | nil => rfl
  | cons i rest ih =>
    have hi : i < d.length := h i (List.mem_cons_self i rest)
    have hrest : ∀ j ∈ rest, j < d.length := fun j hj => h j (List.mem_cons_of_mem i hj)
    simp only [List.map_cons, PdfLib.copyPages, PdfLib.copyPage]
    rw [if_neg (by omega)]
    rw [dif_pos (show (Int.toNat (i : Int)) < d.length by simpa using hi)]
    rw [ih hrest]
    simp [List.get_eq_getElem, List.getD, List.getElem?_eq_getElem hi]

theorem foldl_addPage (l : List Page) : ∀ acc, l.foldl PdfLib.addPage acc = acc ++ l := by
  induction l with
  | nil => intro acc; simp
  | cons p rest ih => intro acc; simp [PdfLib.addPage, ih]

theorem denoteRanges_bounds (N : Nat) (ts : List RangeToken)
    (hwf : ∀ t ∈ ts, tokenWF N t = true) :
    ∀ n ∈ denoteRanges ts, 1 ≤ n ∧ n ≤ N := by
  intro n hn
  unfold denoteRanges at hn
  obtain ⟨l, hl, hnl⟩ := List.mem_flatten.mp hn
  obtain ⟨t, ht, rfl⟩ := List.mem_map.mp hl
  have hwft := hwf t ht
  cases t with
  | single m =>
    simp only [denoteToken, List.mem_singleton] at hnl
    subst hnl
    simp [tokenWF] at hwft
    omega
  | range a b =>
    simp only [denoteToken, List.mem_map, List.mem_range] at hnl
    obtain ⟨i, hi, rfl⟩ := hnl
    simp [tokenWF] at hwft
    omega

/-! ## Claim C1: the split operation -/

/-- C1.  For an uploaded list whose first file is a PDF and a page-range
string of comma-separated 1-based page numbers and increasing dashed ranges
all within the document, handleSplitPDF produces a new PDF holding exactly
the listed pages in the order they appear in the string and reports the
length of that list; with no files, or a non-PDF first file, it produces
nothing and shows a destructive toast. -/
theorem handleSplitPDF_extracts_listed_pages :
    (∀ (f : File) (rest : List File) (d : PdfDoc) (ts : List RangeToken),
       f.type = "application/pdf" →
       f.bytes.parsed = some d →
       ts ≠ [] →
       (∀ t ∈ ts, tokenWF d.length t = true) →
       handleSplitPDF (f :: rest) (renderRanges ts) =
         ⟨some (PdfLib.save ((denoteRanges ts).map (fun n => d.getD (n - 1) default))),
          [⟨ToastVariant.default, some (denoteRanges ts).length⟩], false, []⟩)
    ∧ (∀ s, handleSplitPDF [] s = errorOutcome)
    ∧ (∀ (f : File) (rest : List File) (s : List Char),
        f.type ≠ "application/pdf" → handleSplitPDF (f :: rest) s = errorOutcome) := by
  refine ⟨?_, ?_, ?_⟩
  · intro f rest d ts hty hparsed hne hwf
    have hbounds := denoteRanges_bounds d.length ts hwf
    have hparse := parsePageRanges_render ts hne
    have hmapshape : (denoteRanges ts).map toZeroBased =
        ((denoteRanges ts).map (fun n => n - 1)).map (fun (i : Nat) => some ((i : Int))) := by
      rw [List.map_map]
      apply List.map_congr_left
      intro n hn
      have hb := hbounds n hn
      simp only [Function.comp_apply, toZeroBased]
      congr 1
      omega
    have hcopy := copyPages_map_some d ((denoteRanges ts).map (fun n => n - 1))
      (by intro i hi
          obtain ⟨n, hn, rfl⟩ := List.mem_map.mp hi
          have hb := hbounds n hn
          omega)
    rw [List.map_map] at hcopy
    simp only [handleSplitPDF, if_pos hty, splitTry, PdfLib.load, hparsed, hparse,
      hmapshape, List.map_map, hcopy, foldl_addPage, PdfLib.create, List.nil_append,
      List.length_map]
    simp [Function.comp_def]
  · intro s; rfl
  · intro f rest s hty
    simp [handleSplitPDF, hty]

/-- C1 witness: the concrete three-page file split with the string 1-2,3. -/
theorem handleSplitPDF_extracts_listed_pages_witness :
    (samplePdfFile.type = "application/pdf" ∧
     samplePdfFile.bytes.parsed = some sampleDoc ∧
     sampleTokens ≠ [] ∧
     (∀ t ∈ sampleTokens, tokenWF sampleDoc.length t = true)) ∧
    handleSplitPDF [samplePdfFile] (renderRanges sampleTokens) =
      ⟨some (PdfLib.save ((denoteRanges sampleTokens).map
          (fun n => sampleDoc.getD (n - 1) default))),
       [⟨ToastVariant.default, some (denoteRanges sampleTokens).length⟩], false, []⟩ :=
  ⟨⟨rfl, rfl, by decide, by decide⟩,
   handleSplitPDF_extracts_listed_pages.1 samplePdfFile [] sampleDoc sampleTokens
     rfl rfl (by decide) (by decide)⟩

/-! ## Claim C5: the toolbar edit operation -/

/-- C5.  For a first uploaded file that is a PDF with at least one page,
handleEditPDF appends exactly one text annotation (the sample text, size 12,
red, at x = 50, y = pageHeight - 50) to the first page; the first page's
pre-existing content and every other page appear unchanged in the saved
output. -/
theorem handleEditPDF_adds_sample_text :
    ∀ (f : File) (rest : List File) (p : Page) (prest : List Page),
      f.type = "application/pdf" →
      f.bytes.parsed = some (p :: prest) →
      handleEditPDF (f :: rest) =
        ⟨some (PdfLib.save
            ({ p with elems := p.elems ++
                [PageElem.text ⟨sampleEditText, 50, p.height - 50, 12, 1, 0, 0⟩] } :: prest)),
         [⟨ToastVariant.default, none⟩], false, []⟩ := by
  intro f rest p prest hty hparsed
  simp only [handleEditPDF, if_pos hty, editTry, PdfLib.load, hparsed,
    PdfLib.getPages, PdfLib.drawText, listModify]

/-- C5 witness: the concrete three-page file. -/
theorem handleEditPDF_adds_sample_text_witness :
    (samplePdfFile.type = "application/pdf" ∧
     samplePdfFile.bytes.parsed =
       some (⟨600, 800, []⟩ :: [⟨601, 801, []⟩, ⟨602, 802, []⟩])) ∧
    handleEditPDF [samplePdfFile] =
      ⟨some (PdfLib.save
          ({ width := 600, height := 800,
             elems := [] ++
               [PageElem.text ⟨sampleEditText, 50, (800 : Int) - 50, 12, 1, 0, 0⟩] } ::
            [⟨601, 801, []⟩, ⟨602, 802, []⟩])),
       [⟨ToastVariant.default, none⟩], false, []⟩ :=
  ⟨⟨rfl, rfl⟩,
   handleEditPDF_adds_sample_text samplePdfFile [] ⟨600, 800, []⟩
     [⟨601, 801, []⟩, ⟨602, 802, []⟩] rfl rfl⟩

/-! ## Claim C6: compression ignores the compression level -/

/-- C6.  The compress handler's outcome, and in particular the produced PDF
bytes, depend only on the uploaded files: any two compression-level settings
between 10 and 100 give identical results. -/
theorem handleCompressPDF_ignores_level :
    ∀ (files : List File) (l1 l2 : Nat),
      10 ≤ l1 → l1 ≤ 100 → 10 ≤ l2 → l2 ≤ 100 →
      handleCompressPDF files l1 = handleCompressPDF files l2 :=
  fun _ _ _ _ _ _ _ => rfl

/-- C6 witness: the extreme slider settings on the concrete file. -/
theorem handleCompressPDF_ignores_level_witness :
    ((10 : Nat) ≤ 10 ∧ (10 : Nat) ≤ 100 ∧ (10 : Nat) ≤ 100 ∧ (100 : Nat) ≤ 100) ∧
    handleCompressPDF [samplePdfFile] 10 = handleCompressPDF [samplePdfFile] 100 :=
  ⟨by decide,
   handleCompressPDF_ignores_level [samplePdfFile] 10 100
     (by decide) (by decide) (by decide) (by decide)⟩

/-! ## Claim C4: every handler catches library failures the same way -/

/-- C4.  Whenever the try block of a toolbar handler throws (a pdf-lib call
fails), the handler produces no processed file, shows one destructive toast,
and finishes with the processing flag false; consequently the processed-files
list of Index.tsx is unchanged.  Nothing beyond this catch-and-toast
happens. -/
theorem handlers_catch_library_errors :
    (∀ (f : File) (rest : List File) (s : List Char),
       f.type = "application/pdf" → splitTry f s = .error () →
       handleSplitPDF (f :: rest) s = errorOutcome)
    ∧ (∀ (files : List File) (order : List Nat),
        2 ≤ (files.filter isPdfType).length →
        mergeTry (files.filter isPdfType) order = .error () →
        handleMergePDFs files order = errorOutcome)
    ∧ (∀ files : List File,
        files.filter isImageType ≠ [] →
        imageTry (files.filter isImageType) = .error () →
        handleImageToPDF files = errorOutcome)
    ∧ (∀ (f : File) (rest : List File) (lvl : Nat),
        f.type = "application/pdf" → compressTry f = .error () →
        handleCompressPDF (f :: rest) lvl = errorOutcome)
    ∧ (∀ (f : File) (rest : List File),
        f.type = "application/pdf" → editTry f = .error () →
        handleEditPDF (f :: rest) = errorOutcome)
    ∧ errorOutcome.processed = none
    ∧ errorOutcome.toasts = [⟨ToastVariant.destructive, none⟩]
    ∧ errorOutcome.processing = false
    ∧ (∀ prev : List PdfBytes, applyProcessed errorOutcome prev = prev) := by
  refine ⟨?_, ?_, ?_, ?_, ?_, rfl, rfl, rfl, fun _ => rfl⟩
  · intro f rest s hty herr
    simp [handleSplitPDF, if_pos hty, herr]
  · intro files order h2 herr
    simp only [handleMergePDFs]
    rw [if_neg (by omega), herr]
  · intro files hne herr
    simp only [handleImageToPDF]
    rw [if_neg (by simpa using hne), herr]
  · intro f rest lvl hty herr
    simp [handleCompressPDF, if_pos hty, herr]
  · intro f rest hty herr
    simp [handleEditPDF, if_pos hty, herr]

/-- C4 witness: a file with a PDF MIME type whose bytes fail to load. -/
theorem handlers_catch_library_errors_witness :
    (badPdfFile.type = "application/pdf" ∧ splitTry badPdfFile [] = .error ()) ∧
    handleSplitPDF [badPdfFile] [] = errorOutcome :=
  ⟨⟨rfl, rfl⟩, handlers_catch_library_errors.1 badPdfFile [] [] rfl rfl⟩

/-! ## Claim C7: the uploader filter -/

theorem fileValid_eq_acceptSpec (f : File) : fileValid f = acceptSpec f := by
  unfold fileValid acceptSpec isPdfType isImageType fileSizeLimit
  by_cases hab : (decide (f.type = "application/pdf") || jsStartsWith f.type "image/") = true
  · rw [if_neg (by simp [hab])]
    by_cases hs : f.size ≤ 52428800
    · rw [if_neg (by omega)]
      simp [hab, hs]
    · rw [if_pos (by omega)]
      simp [hab, hs]
  · rw [if_pos (by simpa using hab)]
    simp only [Bool.not_eq_true] at hab
    simp [hab]

theorem rejectToast_eq (f : File) :
    rejectToast f =
      if acceptSpec f then none else some ⟨ToastVariant.destructive, none⟩ := by
  unfold rejectToast acceptSpec isPdfType isImageType fileSizeLimit
  by_cases hab : (decide (f.type = "application/pdf") || jsStartsWith f.type "image/") = true
  · rw [if_neg (by simp [hab])]
    by_cases hs : f.size ≤ 52428800
    · rw [if_neg (by omega)]
      simp [hab, hs]
    · rw [if_pos (by omega)]
      simp [hab, hs]
  · rw [if_pos (by simpa using hab)]
    simp only [Bool.not_eq_true] at hab
    simp [hab]

theorem filterMap_rejectToast (l : List File) :
    l.filterMap rejectToast =
      (l.filter (fun f => ! acceptSpec f)).map
        (fun _ => (⟨ToastVariant.destructive, none⟩ : Toast)) := by
  induction l with
  | nil => rfl
  | cons f rest ih =>
    rw [List.filterMap_cons, rejectToast_eq f]
    by_cases h : acceptSpec f = true
    · simp [h, ih]
    · simp only [Bool.not_eq_true] at h
      simp [h, ih]

/-- C7.  A file offered to the uploader is accepted exactly when its MIME
type is application/pdf or starts with image/ and its size is at most
52,428,800 bytes; the accepted files are appended after the previously
uploaded ones in batch order, and each rejected file yields one destructive
toast. -/
theorem handleFiles_accepts_exactly_valid :
    ∀ (prev incoming : List File),
      (handleFiles prev incoming).1 = prev ++ incoming.filter acceptSpec
      ∧ (handleFiles prev incoming).2 =
          (incoming.filter (fun f => ! acceptSpec f)).map
            (fun _ => ⟨ToastVariant.destructive, none⟩) := by
  intro prev incoming
  have hfv : incoming.filter fileValid = incoming.filter acceptSpec :=
    List.filter_congr (fun f _ => fileValid_eq_acceptSpec f)
  constructor
  · simp only [handleFiles, hfv]
    by_cases h : (incoming.filter acceptSpec).length > 0
    · rw [if_pos h]
    · rw [if_neg h]
      have hempty : incoming.filter acceptSpec = [] := by
        cases hh : incoming.filter acceptSpec with
        | nil => rfl
        | cons a l => rw [hh] at h; simp at h
      rw [hempty, List.append_nil]
  · simp only [handleFiles]
    exact filterMap_rejectToast incoming

/-! ## Claim C2: the merge operation -/

theorem map_getD_range (d : PdfDoc) :
    (List.range d.length).map (fun i => d.getD i default) = d := by
  apply List.ext_getElem
  · simp
  · intro n h1 h2
    simp only [List.getElem_map, List.getElem_range]
    simp [List.getD, List.getElem?_eq_getElem h2]

theorem copyPages_all (d : PdfDoc) :
    PdfLib.copyPages d ((PdfLib.getPageIndices d).map (fun (j : Nat) => some ((j : Int)))) =
      .ok d := by
  unfold PdfLib.getPageIndices
  rw [copyPages_map_some d (List.range d.length) (by intro i hi; simpa using hi)]
  rw [map_getD_range]

theorem loadAll_of_parses (fs : List File) (h : ∀ f ∈ fs, f.bytes.parsed.isSome) :
    loadAll (fs.map (fun f => f.bytes)) = .ok (fs.map (fun f => f.bytes.parsed.getD [])) := by
  induction fs with
  | nil => rfl
  | cons f rest ih =>
    have hf := h f (List.mem_cons_self f rest)
    obtain ⟨d, hd⟩ := Option.isSome_iff_exists.mp hf
    simp only [List.map_cons, loadAll, PdfLib.load, hd]
    rw [ih (fun g hg => h g (List.mem_cons_of_mem f hg))]
    simp [hd]

theorem mergeLoop_range' (pdfs : List File) :
    ∀ (m k : Nat) (acc : PdfDoc), pdfs.length ≤ k + m →
      mergeLoop pdfs (List.range' k m) acc =
        (match loadAll ((pdfs.drop k).map (fun f => f.bytes)) with
         | .error e => .error e
         | .ok docs => .ok (acc ++ docs.flatten)) := by
  intro m
  induction m with
  | zero =>
    intro k acc hk
    have hdrop : pdfs.drop k = [] := List.drop_eq_nil_of_le (by omega)
    simp [List.range', mergeLoop, hdrop, loadAll]
  | succ m ih =>
    intro k acc hk
    rw [List.range'_succ]
    by_cases hklen : k < pdfs.length
    · simp only [mergeLoop, dif_pos hklen, List.get_eq_getElem]
      have hdrop : pdfs.drop k = pdfs[k] :: pdfs.drop (k + 1) :=
        List.drop_eq_getElem_cons hklen
      rw [hdrop]
      cases hload : PdfLib.load pdfs[k].bytes with
      | error e => simp [loadAll, hload]
      | ok pdf =>
        simp only [copyPages_all pdf, foldl_addPage]
        rw [ih (k + 1) (acc ++ pdf) (by omega)]
        simp only [List.map_cons, loadAll, hload]
        cases hrest : loadAll ((pdfs.drop (k + 1)).map (fun f => f.bytes)) with
        | error e => simp
        | ok docs => simp
    · simp only [mergeLoop, dif_neg hklen]
      rw [ih (k + 1) acc (by omega)]
      have h1 : pdfs.drop k = [] := List.drop_eq_nil_of_le (by omega)
      have h2 : pdfs.drop (k + 1) = [] := List.drop_eq_nil_of_le (by omega)
      rw [h1, h2]

/-- C2.  With at least two uploaded PDF files (all of them loadable), merge
produces one PDF whose pages are the concatenation, in upload order, of the
pages of every PDF file; with fewer than two PDF files it produces nothing
and shows a destructive toast.  mergeOrder is files.map((_, index) =>
index), as the useEffect keeps it. -/
theorem handleMergePDFs_concatenates :
    (∀ files : List File,
       2 ≤ (files.filter isPdfType).length →
       (∀ f ∈ files.filter isPdfType, f.bytes.parsed.isSome) →
       handleMergePDFs files (List.range files.length) =
         ⟨some (PdfLib.save
             (((files.filter isPdfType).map (fun f => f.bytes.parsed.getD [])).flatten)),
          [⟨ToastVariant.default, some (files.filter isPdfType).length⟩], false, []⟩)
    ∧ (∀ (files : List File) (order : List Nat),
        (files.filter isPdfType).length < 2 →
        handleMergePDFs files order = errorOutcome) := by
  constructor
  · intro files h2 hparse
    have hle : (files.filter isPdfType).length ≤ files.length :=
      List.length_filter_le _ _
    have hloop := mergeLoop_range' (files.filter isPdfType) files.length 0 []
      (by omega)
    rw [List.drop_zero, loadAll_of_parses _ hparse] at hloop
    simp only [List.nil_append] at hloop
    simp only [handleMergePDFs]
    rw [if_neg (by omega)]
    unfold mergeTry
    rw [show PdfLib.create = ([] : PdfDoc) from rfl, List.range_eq_range', hloop]
  · intro files order hlt
    simp only [handleMergePDFs]
    rw [if_pos hlt]

/-- C2 witness: two concrete PDF files whose merge is the concatenation of
their pages. -/
theorem handleMergePDFs_concatenates_witness :
    (2 ≤ ([samplePdfFile, samplePdfFile2].filter isPdfType).length ∧
     (∀ f ∈ [samplePdfFile, samplePdfFile2].filter isPdfType, f.bytes.parsed.isSome)) ∧
    handleMergePDFs [samplePdfFile, samplePdfFile2]
        (List.range [samplePdfFile, samplePdfFile2].length) =
      ⟨some (PdfLib.save
          ((([samplePdfFile, samplePdfFile2].filter isPdfType).map
              (fun f => f.bytes.parsed.getD [])).flatten)),
       [⟨ToastVariant.default,
         some ([samplePdfFile, samplePdfFile2].filter isPdfType).length⟩], false, []⟩ :=
  ⟨⟨by decide, by decide⟩,
   handleMergePDFs_concatenates.1 [samplePdfFile, samplePdfFile2]
     (by decide) (by decide)⟩

/-! ## Claim C3: the image-to-PDF operation -/

theorem listModify_append_last {α : Type} (f : α → α) (l : List α) (p : α) :
    listModify f l.length (l ++ [p]) = l ++ [f p] := by
  induction l with
  | nil => rfl
  | cons a as ih => simp [listModify, ih]

theorem addImagePage_eq (d : PdfDoc) (img : ImageInfo) :
    addImagePage d img = d ++ [imagePage img] := by
  unfold addImagePage PdfLib.addPageSized PdfLib.drawImage
  rw [listModify_append_last]
  rfl

theorem imageLoop_eq (files : List File) :
    ∀ acc : PdfDoc,
      imageLoop files acc =
        (match embedPages files with
         | .error e => .error e
         | .ok ps => .ok (acc ++ ps.reduceOption)) := by
  induction files with
  | nil => intro acc; simp [imageLoop, embedPages]
  | cons f rest ih =>
    intro acc
    by_cases hj : f.type = "image/jpeg" ∨ f.type = "image/jpg"
    · simp only [imageLoop, if_pos hj, embedPages, if_pos hj]
      cases hemb : PdfLib.embedJpg f with
      | error e => simp
      | ok img =>
        simp only [addImagePage_eq]
        rw [ih (acc ++ [imagePage img])]
        cases hrest : embedPages rest with
        | error e => simp
        | ok ps => simp [List.reduceOption_cons_of_some]
    · by_cases hp : f.type = "image/png"
      · simp only [imageLoop, if_neg hj, if_pos hp, embedPages, if_pos hp]
        cases hemb : PdfLib.embedPng f with
        | error e => simp
        | ok img =>
          simp only [addImagePage_eq]
          rw [ih (acc ++ [imagePage img])]
          cases hrest : embedPages rest with
          | error e => simp
          | ok ps => simp [List.reduceOption_cons_of_some]
      · simp only [imageLoop, if_neg hj, if_neg hp, embedPages]
        rw [ih acc]
        cases hrest : embedPages rest with
        | error e => simp
        | ok ps => simp [List.reduceOption_cons_of_none]

theorem embedPages_of_decodes (files : List File)
    (hj : ∀ f ∈ files, f.type = "image/jpeg" ∨ f.type = "image/jpg" → f.jpgDecode.isSome)
    (hp : ∀ f ∈ files, f.type = "image/png" → f.pngDecode.isSome) :
    embedPages files = .ok (files.map imagePageOpt) := by
  induction files with
  | nil => rfl
  | cons f rest ih =>
    have ihr := ih (fun g hg => hj g (List.mem_cons_of_mem f hg))
      (fun g hg => hp g (List.mem_cons_of_mem f hg))
    by_cases hjf : f.type = "image/jpeg" ∨ f.type = "image/jpg"
    · obtain ⟨img, himg⟩ := Option.isSome_iff_exists.mp
        (hj f (List.mem_cons_self f rest) hjf)
      simp [embedPages, hjf, PdfLib.embedJpg, himg, ihr, imagePageOpt]
    · by_cases hpf : f.type = "image/png"
      · obtain ⟨img, himg⟩ := Option.isSome_iff_exists.mp
          (hp f (List.mem_cons_self f rest) hpf)
        simp [embedPages, hjf, hpf, PdfLib.embedPng, himg, ihr, imagePageOpt]
      · simp [embedPages, hjf, hpf, ihr, imagePageOpt]

theorem reduceOption_map_eq {α β : Type} (l : List α) (f : α → Option β) :
    (l.map f).reduceOption = l.filterMap f := by
  induction l with
  | nil => rfl
  | cons a as ih =>
    cases hfa : f a with
    | none =>
      simp [List.reduceOption_cons_of_none, List.filterMap_cons, hfa, ih]
    | some b =>
      simp [List.reduceOption_cons_of_some, List.filterMap_cons, hfa, ih]

/-- C3.  When at least one uploaded file has an image MIME type, the
image-to-PDF operation produces a PDF with exactly one page per decodable
file of subtype jpeg, jpg or png, in upload order, each page of the image's
size with the image drawn at (0,0) filling it; files of any other image
subtype contribute no page. -/
theorem handleImageToPDF_one_page_per_image :
    (∀ files : List File,
       files.filter isImageType ≠ [] →
       (∀ f ∈ files.filter isImageType,
         f.type = "image/jpeg" ∨ f.type = "image/jpg" → f.jpgDecode.isSome) →
       (∀ f ∈ files.filter isImageType,
         f.type = "image/png" → f.pngDecode.isSome) →
       handleImageToPDF files =
         ⟨some (PdfLib.save ((files.filter isImageType).filterMap imagePageOpt)),
          [⟨ToastVariant.default, some (files.filter isImageType).length⟩],
          false, []⟩)
    ∧ (∀ files : List File,
        files.filter isImageType = [] → handleImageToPDF files = errorOutcome) := by
  constructor
  · intro files hne hj hp
    simp only [handleImageToPDF]
    rw [if_neg (by simpa using hne)]
    unfold imageTry
    rw [imageLoop_eq _ PdfLib.create,
      embedPages_of_decodes (files.filter isImageType) hj hp]
    simp only [reduceOption_map_eq]
    rfl
  · intro files hempty
    simp only [handleImageToPDF]
    rw [if_pos (by simp [hempty])]

/-- C3 witness: a PNG file, a GIF file (skipped) and a text file (not an
image at all) uploaded together. -/
theorem handleImageToPDF_one_page_per_image_witness :
    (([samplePngFile, sampleGifFile, sampleTextFile].filter isImageType ≠ []) ∧
     (∀ f ∈ [samplePngFile, sampleGifFile, sampleTextFile].filter isImageType,
       f.type = "image/jpeg" ∨ f.type = "image/jpg" → f.jpgDecode.isSome) ∧
     (∀ f ∈ [samplePngFile, sampleGifFile, sampleTextFile].filter isImageType,
       f.type = "image/png" → f.pngDecode.isSome)) ∧
    handleImageToPDF [samplePngFile, sampleGifFile, sampleTextFile] =
      ⟨some (PdfLib.save
          (([samplePngFile, sampleGifFile, sampleTextFile].filter isImageType).filterMap
            imagePageOpt)),
       [⟨ToastVariant.default,
         some ([samplePngFile, sampleGifFile, sampleTextFile].filter isImageType).length⟩],
       false, []⟩ :=
  ⟨⟨by decide, by decide, by decide⟩,
   handleImageToPDF_one_page_per_image.1 [samplePngFile, sampleGifFile, sampleTextFile]
     (by decide) (by decide) (by decide)⟩

/-! ## Claim C8: undo/redo on the editor canvas -/

/-- C8 counterexample: with a canvas present and redo marked available, the
redo handler performs no fabric.js call and leaves the editor state
untouched, so the spec sentence that redo is carried out by the canvas
library is false. -/
theorem undoRedo_not_delegated : ¬ undoRedoDelegated := by
  intro h
  rcases h sampleEditorState (by decide) (by decide) with h1 | h1
  · exact h1 rfl
  · exact h1 rfl

/-- C8 amended.  Freehand drawing, shape placement and text editing go
through fabric.js, but undo is application code: it removes the most
recently added canvas object through the library's remove call and resets
canRedo to false; redo is not implemented at all — it changes nothing and
only shows the coming-soon toast. -/
theorem handleUndo_removes_last_and_redo_is_noop :
    (∀ (s : EditorState) (c : CanvasState),
       s.fabricCanvas = some c → s.canUndo = true → c.objects ≠ [] →
       handleUndo s =
         ⟨⟨some { c with objects := c.objects.dropLast },
           decide (c.objects.dropLast.length > 0), false⟩,
          [FabricCall.getObjects,
           FabricCall.remove (c.objects.getLast?.getD default)],
          []⟩)
    ∧ (∀ s : EditorState, handleRedo s = ⟨s, [], [comingSoonToast]⟩) := by
  constructor
  · intro s c hc hcu hobj
    simp only [handleUndo, hc, hcu, if_true]
    rw [if_pos (List.length_pos.mpr hobj)]
  · intro s
    rfl

/-- C8 amended witness: undoing on a concrete two-object canvas removes the
second object, and redo leaves that state alone. -/
theorem handleUndo_removes_last_and_redo_is_noop_witness :
    ((⟨some sampleCanvas, true, false⟩ : EditorState).fabricCanvas = some sampleCanvas ∧
     (⟨some sampleCanvas, true, false⟩ : EditorState).canUndo = true ∧
     sampleCanvas.objects ≠ []) ∧
    handleUndo ⟨some sampleCanvas, true, false⟩ =
      ⟨⟨some { sampleCanvas with objects := sampleCanvas.objects.dropLast },
        decide (sampleCanvas.objects.dropLast.length > 0), false⟩,
       [FabricCall.getObjects,
        FabricCall.remove (sampleCanvas.objects.getLast?.getD default)],
       []⟩ :=
  ⟨⟨rfl, rfl, by decide⟩,
   handleUndo_removes_last_and_redo_is_noop.1
     ⟨some sampleCanvas, true, false⟩ sampleCanvas rfl rfl (by decide)⟩

/-! ## Claim C9: every PDF-structural operation is a pdf-lib composition -/

theorem copyAllPages_ok (docs : List PdfDoc) : copyAllPages docs = .ok docs := by
  induction docs with
  | nil => rfl
  | cons d rest ih => simp [copyAllPages, copyPages_all d, ih]

/-- C9.  Each operation's try block equals a straight composition of the
pdf-lib primitives load / create / copyPages / addPage / embedJpg / embedPng
/ drawText / drawImage / save: the input bytes are consumed only by load and
the output bytes produced only by save, so the application performs no PDF
parsing or serialisation of its own. -/
theorem pdf_ops_are_library_compositions :
    (∀ (f : File) (s : List Char),
       splitTry f s = Except.map (fun b => (b, (parsePageRanges s).length))
         (splitComposition f.bytes (parsePageRanges s)))
    ∧ (∀ (pdfs : List File) (n : Nat), pdfs.length ≤ n →
        mergeTry pdfs (List.range n) = mergeComposition (pdfs.map (fun f => f.bytes)))
    ∧ (∀ files : List File, imageTry files = imagesComposition files)
    ∧ (∀ f : File, compressTry f = compressComposition f.bytes)
    ∧ (∀ f : File, editTry f = editComposition f.bytes)
    ∧ (∀ c : CanvasState, (handleSave (some c)).processed = some (saveComposition c)) := by
  refine ⟨?_, ?_, ?_, fun f => rfl, fun f => rfl, fun c => rfl⟩
  · intro f s
    cases hl : PdfLib.load f.bytes with
    | error e => simp [splitTry, splitComposition, hl, Except.map]
    | ok d =>
      cases hc : PdfLib.copyPages d (parsePageRanges s) with
      | error e => simp [splitTry, splitComposition, hl, hc, Except.map]
      | ok ps => simp [splitTry, splitComposition, hl, hc, Except.map]
  · intro pdfs n hn
    unfold mergeTry mergeComposition
    have hloop := mergeLoop_range' pdfs n 0 [] (by omega)
    rw [List.drop_zero] at hloop
    rw [show PdfLib.create = ([] : PdfDoc) from rfl, List.range_eq_range', hloop]
    cases hl : loadAll (pdfs.map (fun f => f.bytes)) with
    | error e => simp
    | ok docs => simp [copyAllPages_ok docs, foldl_addPage, PdfLib.create]
  · intro files
    unfold imageTry imagesComposition
    rw [imageLoop_eq files PdfLib.create]
    cases he : embedPages files with
    | error e => simp
    | ok ps => simp [foldl_addPage, PdfLib.create]

/-- C9 witness: the merge try block on two concrete files equals the
composition of library calls. -/
theorem pdf_ops_are_library_compositions_witness :
    ([samplePdfFile, samplePdfFile2].length ≤ 2) ∧
    mergeTry [samplePdfFile, samplePdfFile2] (List.range 2) =
      mergeComposition ([samplePdfFile, samplePdfFile2].map (fun f => f.bytes)) :=
  ⟨by decide,
   pdf_ops_are_library_compositions.2.1 [samplePdfFile, samplePdfFile2] 2 (by decide)⟩

/-! ## Claim C10: uploaded file contents never reach a network endpoint -/

theorem handleSplitPDF_net (files : List File) (s : List Char) :
    (handleSplitPDF files s).net = [] := by
  cases files with
  | nil => rfl
  | cons f rest =>
    by_cases h : f.type = "application/pdf"
    · simp only [handleSplitPDF, if_pos h]
      cases hst : splitTry f s with
      | error e => rfl
      | ok v =>
        obtain ⟨b, n⟩ := v
        rfl
    · simp only [handleSplitPDF, if_neg h]
      rfl

theorem handleMergePDFs_net (files : List File) (order : List Nat) :
    (handleMergePDFs files order).net = [] := by
  simp only [handleMergePDFs]
  by_cases h : (files.filter isPdfType).length < 2
  · rw [if_pos h]
    rfl
  · rw [if_neg h]
    cases mergeTry (files.filter isPdfType) order with
    | error e => rfl
    | ok b => rfl

theorem handleImageToPDF_net (files : List File) :
    (handleImageToPDF files).net = [] := by
  simp only [handleImageToPDF]
  by_cases h : (files.filter isImageType).length = 0
  · rw [if_pos h]
    rfl
  · rw [if_neg h]
    cases imageTry (files.filter isImageType) with
    | error e => rfl
    | ok b => rfl

theorem handleCompressPDF_net (files : List File) (lvl : Nat) :
    (handleCompressPDF files lvl).net = [] := by
  cases files with
  | nil => rfl
  | cons f rest =>
    by_cases h : f.type = "application/pdf"
    · simp only [handleCompressPDF, if_pos h]
      cases compressTry f with
      | error e => rfl
      | ok b => rfl
    · simp only [handleCompressPDF, if_neg h]
      rfl

theorem handleEditPDF_net (files : List File) :
    (handleEditPDF files).net = [] := by
  cases files with
  | nil => rfl
  | cons f rest =>
    by_cases h : f.type = "application/pdf"
    · simp only [handleEditPDF, if_pos h]
      cases editTry f with
      | error e => rfl
      | ok b => rfl
    · simp only [handleEditPDF, if_neg h]
      rfl

/-- C10.  No toolbar handler issues any request at all; the editor save
issues exactly one fetch of a data URL, which the browser resolves locally;
and the only remote request of the module, the pdf.js worker script, is a
fixed URL carrying no body.  Hence uploaded file contents are never
transmitted to a network endpoint. -/
theorem no_file_content_reaches_network :
    (∀ (files : List File) (s : List Char),
       ∀ r ∈ (handleSplitPDF files s).net, networkSafe r)
    ∧ (∀ (files : List File) (order : List Nat),
        ∀ r ∈ (handleMergePDFs files order).net, networkSafe r)
    ∧ (∀ files : List File, ∀ r ∈ (handleImageToPDF files).net, networkSafe r)
    ∧ (∀ (files : List File) (lvl : Nat),
        ∀ r ∈ (handleCompressPDF files lvl).net, networkSafe r)
    ∧ (∀ files : List File, ∀ r ∈ (handleEditPDF files).net, networkSafe r)
    ∧ (∀ c : Option CanvasState, ∀ r ∈ (handleSave c).net, networkSafe r)
    ∧ (∀ r ∈ pdfCanvasModuleRequests, r.body = none ∧ networkSafe r) := by
  refine ⟨?_, ?_, ?_, ?_, ?_, ?_, ?_⟩
  · intro files s r hr
    rw [handleSplitPDF_net] at hr
    cases hr
  · intro files order r hr
    rw [handleMergePDFs_net] at hr
    cases hr
  · intro files r hr
    rw [handleImageToPDF_net] at hr
    cases hr
  · intro files lvl r hr
    rw [handleCompressPDF_net] at hr
    cases hr
  · intro files r hr
    rw [handleEditPDF_net] at hr
    cases hr
  · intro c r hr
    cases c with
    | none => cases hr
    | some cv =>
      simp only [handleSave, List.mem_singleton] at hr
      subst hr
      exact Or.inl rfl
  · intro r hr
    simp only [pdfCanvasModuleRequests, List.mem_singleton] at hr
    subst hr
    exact ⟨rfl, Or.inr rfl⟩

/-- C10 witness: the one request of a concrete editor save is a data URL
resolved inside the browser. -/
theorem no_file_content_reaches_network_witness :
    (dataUrlFetch sampleCanvas ∈ (handleSave (some sampleCanvas)).net) ∧
    networkSafe (dataUrlFetch sampleCanvas) :=
  ⟨by decide,
   no_file_content_reaches_network.2.2.2.2.2.1 (some sampleCanvas)
     (dataUrlFetch sampleCanvas) (by decide)⟩
